import Mathlib

/-!
# Verification of the functional-ops combinator layer

Shallow embedding of `tensorflow/python/ops/functional_ops.py`: the four
higher-order combinators `foldl`, `foldr`, `map_fn` and `scan`, built on the
indexed sequence buffer (`TensorArray`, from `tensor_array_ops`) and the
bounded iteration construct (`While`, from `control_flow_ops`).

Only `functional_ops.py` is in the given source; the `TensorArray` and
`While` primitives it calls are modelled from the specification's ISB and
BIC contracts (sections 4.1 and 4.2 of the spec).  The combinators
themselves are translated statement by statement from the Python source.

Conventions of the embedding:
- a tensor (`Value`) is either a rank-0 scalar or a list of leading-dimension
  slices (`stacked`), which is all the combinators observe of tensors;
- graph construction plus deferred execution is collapsed into a direct
  runtime semantics in the `Except Err` monad: each graph-level failure mode
  of the spec's taxonomy is an `Err` constructor;
- the loop is run with explicit fuel; every combinator passes fuel `n`
  (the number of slots), which is enough for its loop to reach a false
  predicate, so `outOfFuel` never occurs in the proved equations;
- a Python callable argument is modelled by `Fn2` / `Fn1`: possibly not
  callable at all, possibly a callable of the wrong arity (calling it then
  raises `typeError`, as in Python), or a genuine function.
-/

namespace FuncOps

/-- Error taxonomy from the spec (section 7).  `typeError` covers both the
`fn must be callable` validation (the spec's `NotCallableError`) and a call
of a callable with the wrong number of arguments; `outOfFuel` is the fuel
guard of the loop model and never occurs in any proved equation. -/
inductive Err where
  | typeError
  | shapeError
  | indexError
  | incompleteError
  | outOfFuel
deriving DecidableEq, Repr

/-- Modelled from the spec: the external `Value` type (section 3) — an
immutable array handle, observed only through its leading dimension.  A
value is a rank-0 scalar or a stack of leading-dimension slices. -/
inductive Value (α : Type) where
  | scalar (x : α)
  | stacked (slices : List (Value α))

/-- Modelled from the spec: the Indexed Sequence Buffer (section 4.1), the
contract behind `tensor_array_ops.TensorArray`.  A buffer is a list of
slots, each either written (`some`) or empty (`none`). -/
structure TensorArray (ε : Type) where
  slots : List (Option ε)

/-- Capacity of the buffer (the `size` argument of the TensorArray). -/
def TensorArray.size (ta : TensorArray ε) : Nat := ta.slots.length

/-- Modelled from the spec: `read(buffer, index)` fails with `IndexError` if
the index is out of `[0, capacity)` or the slot is unwritten.  The index is
an integer because the combinators compute it as `n - 1`, which is negative
on empty input. -/
def TensorArray.read (ta : TensorArray ε) (i : Int) : Except Err ε :=
  if 0 ≤ i then
    match ta.slots[i.toNat]? with
    | some (some v) => .ok v
    | some none => .error .indexError
    | none => .error .indexError
  else .error .indexError

/-- Modelled from the spec: `write(buffer, index, value)` fails with
`IndexError` out of range and returns a new buffer otherwise. -/
def TensorArray.write (ta : TensorArray ε) (i : Int) (v : ε) :
    Except Err (TensorArray ε) :=
  if 0 ≤ i ∧ i.toNat < ta.slots.length then
    .ok ⟨ta.slots.set i.toNat (some v)⟩
  else .error .indexError

/-- Modelled from the spec: allocation of an empty buffer with the given
capacity (the `TensorArray(dtype, size, dynamic_size=False)` constructor). -/
def TensorArray.alloc (n : Nat) : TensorArray ε := ⟨List.replicate n none⟩

/-- Collects a list of options into an option of a list: `some` exactly when
every slot is written. -/
def seqOpts : List (Option ε) → Option (List ε)
  | [] => some []
  | none :: _ => none
  | some v :: rest => (seqOpts rest).map (v :: ·)

/-- Modelled from the spec: `pack(buffer)` stacks slots `0..capacity-1` in
order along a new leading dimension; fails with `IncompleteError` if any
slot is unwritten. -/
def TensorArray.pack (ta : TensorArray (Value α)) : Except Err (Value α) :=
  match seqOpts ta.slots with
  | some l => .ok (Value.stacked l)
  | none => .error .incompleteError

/-- Modelled from the spec: `unpack(value)` gives a buffer whose capacity is
the size of the value's leading dimension, slot `i` pre-filled with the
`i`-th leading slice; fails with `ShapeError` on a rank-0 value. -/
def unpack (v : Value α) : Except Err (TensorArray (Value α)) :=
  match v with
  | .scalar _ => .error .shapeError
  | .stacked slices => .ok ⟨slices.map some⟩

/-- Scheduling knobs of `control_flow_ops.While`, as forwarded by every
combinator: `parallel_iterations`, `back_prop`, `swap_memory`. -/
structure Knobs where
  parallel_iterations : Nat
  back_prop : Bool
  swap_memory : Bool
deriving DecidableEq, Repr

/-- Default knob values of the Python signatures:
`parallel_iterations=10, back_prop=True, swap_memory=False`. -/
def defaultKnobs : Knobs := ⟨10, true, false⟩

/-- Fuel-indexed iteration of a conditional loop: evaluate the body while
the predicate holds, spending one unit of fuel per body evaluation. -/
def whileRun {σ : Type} (cond : σ → Bool) (body : σ → Except Err σ) :
    Nat → σ → Except Err σ
  | 0, s => if cond s then .error .outOfFuel else .ok s
  | fuel + 1, s =>
      if cond s then (body s).bind (whileRun cond body fuel) else .ok s

/-- Modelled from the spec: `control_flow_ops.While`, the Bounded Iteration
Construct (section 4.2).  It repeatedly evaluates `tuple := body(tuple)`
while `predicate(tuple)` holds; iteration is logically sequential, and the
scheduling knobs (`parallel_iterations`, `back_prop`, `swap_memory`) are
execution hints that must not change observable results, so the sequential
model takes them and does not consult them. -/
def While {σ : Type} (cond : σ → Bool) (body : σ → Except Err σ) (init : σ)
    (_cfg : Knobs) (fuel : Nat) : Except Err σ :=
  whileRun cond body fuel init

/-- A Python value passed as a two-argument callback: not callable at all,
a callable of the wrong arity (carrying the underlying one-argument
function; calling it with two arguments raises `TypeError`), or a genuine
two-argument function. -/
inductive Fn2 (ε : Type) where
  | notCallable
  | wrongArity (g : ε → ε)
  | mk (f : ε → ε → ε)

/-- The `callable(fn)` test of Python: true for anything callable,
regardless of arity. -/
def Fn2.isCallable : Fn2 ε → Bool
  | .notCallable => false
  | _ => true

/-- Calling `fn(a, x)`: succeeds only for a genuine two-argument function;
a wrong-arity callable raises `TypeError` at the call site. -/
def Fn2.call : Fn2 ε → ε → ε → Except Err ε
  | .mk f, a, x => .ok (f a x)
  | _, _, _ => .error .typeError

/-- A Python value passed as a one-argument callback (for `map_fn`). -/
inductive Fn1 (ε δ : Type) where
  | notCallable
  | wrongArity (f : ε → ε → ε)
  | mk (g : ε → δ)

/-- The `callable(fn)` test for a one-argument callback. -/
def Fn1.isCallable : Fn1 ε δ → Bool
  | .notCallable => false
  | _ => true

/-- Calling `fn(x)`: succeeds only for a genuine one-argument function. -/
def Fn1.call : Fn1 ε δ → ε → Except Err δ
  | .mk g, x => .ok (g x)
  | _, _ => .error .typeError

/-- Loop body of `foldl` (the nested `compute` of the source):
`a = fn(a, elems_ta.read(i)); return [i + 1, a]`. -/
def foldlCompute (fn : Fn2 (Value α)) (elems_ta : TensorArray (Value α)) :
    Int × Value α → Except Err (Int × Value α) := fun s => do
  let x ← elems_ta.read s.1
  let a ← fn.call s.2 x
  pure (s.1 + 1, a)

/-- The `foldl` combinator, statement for statement from the source: check
`callable(fn)`, unpack `elems` into a buffer of `n` slots, initialise
`(i, a)` to `(1, read(0))` without an explicit initial accumulator and to
`(0, that value)` with one, then run `While(lambda i, a: i < n, compute)`
and return the final accumulator. -/
def foldl (fn : Fn2 (Value α)) (elems : Value α) (init : Option (Value α))
    (cfg : Knobs) : Except Err (Value α) := do
  if fn.isCallable = false then throw Err.typeError
  let elems_ta ← unpack elems
  let n := elems_ta.size
  let ia ← match init with
    | none => (elems_ta.read 0).map (fun a => ((1 : Int), a))
    | some v => pure ((0 : Int), v)
  let r ← While (fun s => s.1 < (n : Int)) (foldlCompute fn elems_ta) ia cfg n
  pure r.2

/-- Loop body of `foldr`: `i -= 1; a = fn(a, elems_ta.read(i));
return [i, a]`. -/
def foldrCompute (fn : Fn2 (Value α)) (elems_ta : TensorArray (Value α)) :
    Int × Value α → Except Err (Int × Value α) := fun s => do
  let i := s.1 - 1
  let x ← elems_ta.read i
  let a ← fn.call s.2 x
  pure (i, a)

/-- The `foldr` combinator from the source: initialise `(i, a)` to
`(n - 1, read(n - 1))` without an explicit initial accumulator and to
`(n, that value)` with one, then run `While(lambda i, a: i > 0, compute)`
and return the final accumulator. -/
def foldr (fn : Fn2 (Value α)) (elems : Value α) (init : Option (Value α))
    (cfg : Knobs) : Except Err (Value α) := do
  if fn.isCallable = false then throw Err.typeError
  let elems_ta ← unpack elems
  let n := elems_ta.size
  let ia ← match init with
    | none => (elems_ta.read ((n : Int) - 1)).map (fun a => ((n : Int) - 1, a))
    | some v => pure ((n : Int), v)
  let r ← While (fun s => s.1 > 0) (foldrCompute fn elems_ta) ia cfg n
  pure r.2

/-- Loop body of `map_fn`: `ta = ta.write(i, fn(elems_ta.read(i)));
return [i + 1, ta]`. -/
def mapCompute (fn : Fn1 (Value α) (Value β)) (elems_ta : TensorArray (Value α)) :
    Int × TensorArray (Value β) → Except Err (Int × TensorArray (Value β)) :=
  fun s => do
    let x ← elems_ta.read s.1
    let y ← fn.call x
    let ta ← s.2.write s.1 y
    pure (s.1 + 1, ta)

/-- The `map_fn` combinator from the source: check `callable(fn)`, unpack
`elems`, allocate an output buffer of the same capacity, run
`While(lambda i, a: i < n)` from `i = 0`, and pack the output buffer. -/
def map_fn (fn : Fn1 (Value α) (Value β)) (elems : Value α) (cfg : Knobs) :
    Except Err (Value β) := do
  if fn.isCallable = false then throw Err.typeError
  let elems_ta ← unpack elems
  let n := elems_ta.size
  let acc_ta : TensorArray (Value β) := TensorArray.alloc n
  let r ← While (fun s => s.1 < (n : Int)) (mapCompute fn elems_ta)
    ((0 : Int), acc_ta) cfg n
  r.2.pack

/-- Loop body of `scan`: `a = fn(a, elems_ta.read(i)); ta = ta.write(i, a);
return [i + 1, a, ta]`. -/
def scanCompute (fn : Fn2 (Value α)) (elems_ta : TensorArray (Value α)) :
    Int × Value α × TensorArray (Value α) →
      Except Err (Int × Value α × TensorArray (Value α)) := fun s => do
  let x ← elems_ta.read s.1
  let a ← fn.call s.2.1 x
  let ta ← s.2.2.write s.1 a
  pure (s.1 + 1, a, ta)

/-- The `scan` combinator from the source: initialise `(i, a)` as `foldl`
does, allocate an output buffer of capacity `n`, pre-write slot 0 with the
accumulator when no explicit initial value was given, run
`While(lambda i, a, ta: i < n)`, and pack the output buffer. -/
def scan (fn : Fn2 (Value α)) (elems : Value α) (init : Option (Value α))
    (cfg : Knobs) : Except Err (Value α) := do
  if fn.isCallable = false then throw Err.typeError
  let elems_ta ← unpack elems
  let n := elems_ta.size
  let ia ← match init with
    | none => (elems_ta.read 0).map (fun a => ((1 : Int), a))
    | some v => pure ((0 : Int), v)
  let acc_ta : TensorArray (Value α) := TensorArray.alloc n
  let acc_ta ← match init with
    | none => acc_ta.write 0 ia.2
    | some _ => pure acc_ta
  let r ← While (fun s => s.1 < (n : Int)) (scanCompute fn elems_ta)
    (ia.1, ia.2, acc_ta) cfg n
  r.2.2.pack

/-- Running prefix accumulations: `scanAcc f a [x0, x1, ...] =
[f a x0, f (f a x0) x1, ...]`, the list of successive accumulator values. -/
def scanAcc (f : ε → ε → ε) (a : ε) : List ε → List ε
  | [] => []
  | x :: xs => f a x :: scanAcc f (f a x) xs

/-- Pointwise addition on scalar values, used as a concrete callback in
witnesses. -/
def addV : Value Nat → Value Nat → Value Nat
  | .scalar a, .scalar b => .scalar (a + b)
  | a, _ => a

/-- The projection `fun a x => a`, a concrete non-commutative callback used
to separate `foldl` from `foldr`. -/
def keepFirst : Value Nat → Value Nat → Value Nat := fun a _ => a

theorem exc_bind_ok {α β : Type} (v : α) (f : α → Except Err β) :
    (Except.ok v >>= f) = f v := rfl

theorem exc_bind_err {α β : Type} (e : Err) (f : α → Except Err β) :
    ((Except.error e : Except Err α) >>= f) = .error e := rfl

theorem exc_map_ok {α β : Type} (v : α) (f : α → β) :
    (Except.ok v : Except Err α).map f = .ok (f v) := rfl

theorem exc_bindF_ok {α β : Type} (v : α) (f : α → Except Err β) :
    (Except.ok v : Except Err α).bind f = f v := rfl

theorem exc_bindF_err {α β : Type} (e : Err) (f : α → Except Err β) :
    ((Except.error e : Except Err α)).bind f = .error e := rfl

theorem exc_pure {α : Type} (v : α) : (pure v : Except Err α) = .ok v := rfl

theorem read_in_range {ε : Type} (l : List ε) (j : Nat) (hj : j < l.length) :
    TensorArray.read ⟨l.map some⟩ (j : Int) = .ok (l.get ⟨j, hj⟩) := by
  simp [TensorArray.read, List.getElem?_map, List.getElem?_eq_getElem hj]

theorem read_out_of_range {ε : Type} (l : List ε) (j : Nat)
    (hj : l.length ≤ j) : TensorArray.read ⟨l.map some⟩ (j : Int) =
      .error .indexError := by
  have : (l.map some)[j]? = none := by
    simp [List.getElem?_eq_none_iff, hj]
  simp [TensorArray.read, this]

theorem read_negative {ε : Type} (ta : TensorArray ε) (i : Int) (hi : i < 0) :
    ta.read i = .error .indexError := by
  simp [TensorArray.read, not_le.mpr hi]

theorem foldl_loop {α : Type} (f : Value α → Value α → Value α)
    (l : List (Value α)) :
    ∀ fuel j a, j ≤ l.length → l.length - j ≤ fuel →
    whileRun (fun s => s.1 < (l.length : Int))
      (foldlCompute (Fn2.mk f) ⟨l.map some⟩) fuel ((j : Int), a)
      = .ok ((l.length : Int), (l.drop j).foldl f a) := by
  intro fuel
  induction fuel with
  | zero =>
      intro j a hj hf
      have hjn : j = l.length := by omega
      subst hjn
      simp [whileRun]
  | succ fuel ih =>
      intro j a hj hf
      by_cases hlt : j < l.length
      · have hc : ((j : Int) < (l.length : Int)) := by exact_mod_cast hlt
        have hcb : decide ((j : Int) < (l.length : Int)) = true :=
          decide_eq_true hc
        have hread := read_in_range l j hlt
        have hstep : (((j : Int)) + 1) = ((j + 1 : Nat) : Int) := by
          push_cast; ring
        have hdrop : l.drop j = l.get ⟨j, hlt⟩ :: l.drop (j + 1) :=
          List.drop_eq_getElem_cons hlt
        simp only [whileRun, hcb, if_true, foldlCompute, hread, Fn2.call,
          exc_bind_ok, exc_bindF_ok, exc_pure]
        rw [hstep]
        rw [ih (j + 1) (f a (l.get ⟨j, hlt⟩)) (by omega) (by omega)]
        rw [hdrop, List.foldl_cons]
      · have hjn : j = l.length := by omega
        subst hjn
        simp [whileRun]

theorem foldl_mk_none {α : Type} (f : Value α → Value α → Value α)
    (x : Value α) (xs : List (Value α)) (cfg : Knobs) :
    foldl (Fn2.mk f) (Value.stacked (x :: xs)) none cfg =
      .ok (xs.foldl f x) := by
  have h0 : TensorArray.read ⟨(x :: xs).map some⟩ ((0 : Nat) : Int) =
      .ok ((x :: xs).get ⟨0, by simp⟩) := read_in_range (x :: xs) 0 (by simp)
  have hloop := foldl_loop f (x :: xs) (x :: xs).length 1 x
    (by simp) (by simp)
  simp only [List.get] at h0
  simp only [foldl, While, Fn2.isCallable, unpack, TensorArray.size,
    List.length_map, exc_bind_ok, exc_bindF_ok, exc_pure, exc_map_ok]
  norm_num at h0 ⊢
  rw [h0, exc_map_ok, exc_bind_ok]
  norm_num at hloop
  rw [hloop, exc_bind_ok]

theorem foldl_mk_some {α : Type} (f : Value α → Value α → Value α)
    (l : List (Value α)) (v : Value α) (cfg : Knobs) :
    foldl (Fn2.mk f) (Value.stacked l) (some v) cfg = .ok (l.foldl f v) := by
  have hloop := foldl_loop f l l.length 0 v (by simp) (by simp)
  simp only [foldl, While, Fn2.isCallable, unpack, TensorArray.size,
    List.length_map, exc_bind_ok, exc_bindF_ok, exc_pure, exc_map_ok]
  norm_num at hloop
  rw [hloop, exc_bind_ok]
  simp

theorem foldr_loop {α : Type} (f : Value α → Value α → Value α)
    (l : List (Value α)) :
    ∀ j a fuel, j ≤ l.length → j ≤ fuel →
    whileRun (fun s => s.1 > 0) (foldrCompute (Fn2.mk f) ⟨l.map some⟩)
      fuel ((j : Int), a)
      = .ok (0, ((l.take j).reverse).foldl f a) := by
  intro j
  induction j with
  | zero =>
      intro a fuel _ _
      cases fuel <;> simp [whileRun]
  | succ j ih =>
      intro a fuel hj hf
      obtain ⟨fuel, rfl⟩ : ∃ k, fuel = k + 1 := ⟨fuel - 1, by omega⟩
      have hc : (((j + 1 : Nat)) : Int) > 0 := by exact_mod_cast Nat.succ_pos j
      have hcb : decide ((((j + 1 : Nat)) : Int) > 0) = true := decide_eq_true hc
      have hlt : j < l.length := by omega
      have hread := read_in_range l j hlt
      have hsub : (((j + 1 : Nat)) : Int) - 1 = ((j : Nat) : Int) := by
        push_cast; ring
      simp only [whileRun, hcb, if_true, foldrCompute, hsub, hread, Fn2.call,
        exc_bind_ok, exc_bindF_ok, exc_pure]
      rw [ih (f a (l.get ⟨j, hlt⟩)) fuel (by omega) (by omega)]
      have htake : l.take (j + 1) = l.take j ++ [l.get ⟨j, hlt⟩] :=
        (List.take_concat_get' l j hlt).symm
      rw [htake, List.reverse_append, List.reverse_singleton,
        List.singleton_append, List.foldl_cons]

theorem foldr_mk_some {α : Type} (f : Value α → Value α → Value α)
    (l : List (Value α)) (v : Value α) (cfg : Knobs) :
    foldr (Fn2.mk f) (Value.stacked l) (some v) cfg =
      .ok (l.reverse.foldl f v) := by
  have hloop := foldr_loop f l l.length v l.length (by simp) (by simp)
  simp only [foldr, While, Fn2.isCallable, unpack, TensorArray.size,
    List.length_map, exc_bind_ok, exc_bindF_ok, exc_pure, exc_map_ok]
  rw [hloop, exc_bind_ok]
  simp

theorem foldr_mk_none {α : Type} (f : Value α → Value α → Value α)
    (xs : List (Value α)) (x : Value α) (cfg : Knobs) :
    foldr (Fn2.mk f) (Value.stacked (xs ++ [x])) none cfg =
      .ok (xs.reverse.foldl f x) := by
  have hlen : xs.length < (xs ++ [x]).length := by simp
  have hsub : (((xs ++ [x]).length : Nat) : Int) - 1 =
      ((xs.length : Nat) : Int) := by simp
  have hget : (xs ++ [x]).get ⟨xs.length, hlen⟩ = x := by
    simp
  have hread := read_in_range (xs ++ [x]) xs.length hlen
  rw [hget] at hread
  have hloop := foldr_loop f (xs ++ [x]) xs.length x ((xs ++ [x]).length)
    (by simp) (by simp)
  have htake : (xs ++ [x]).take xs.length = xs := by simp
  rw [htake] at hloop
  simp only [foldr, While, Fn2.isCallable, unpack, TensorArray.size,
    List.length_map, hsub, hread, exc_bind_ok, exc_bindF_ok, exc_pure,
    exc_map_ok]
  rw [hloop, exc_bind_ok]
  simp

theorem write_in_range {ε : Type} (slots : List (Option ε)) (j : Nat) (v : ε)
    (hj : j < slots.length) :
    TensorArray.write ⟨slots⟩ (j : Int) v = .ok ⟨slots.set j (some v)⟩ := by
  simp [TensorArray.write, hj]

theorem slots_set {ε : Type} (w : List ε) (k : Nat) (y : ε) :
    (w.map some ++ List.replicate (k + 1) none).set w.length (some y)
      = (w ++ [y]).map some ++ List.replicate k none := by
  induction w with
  | nil => simp [List.replicate_succ]
  | cons hd tl ih => simp [List.set, ih]

theorem seqOpts_map_some {ε : Type} (l : List ε) :
    seqOpts (l.map some) = some l := by
  induction l with
  | nil => rfl
  | cons x xs ih => simp [seqOpts, ih]

theorem pack_map_some {α : Type} (l : List (Value α)) :
    TensorArray.pack ⟨l.map some⟩ = .ok (Value.stacked l) := by
  simp [TensorArray.pack, seqOpts_map_some]

theorem map_loop {α β : Type} (g : Value α → Value β) (l : List (Value α)) :
    ∀ fuel j (w : List (Value β)), w.length = j → j ≤ l.length →
      l.length - j ≤ fuel →
    whileRun (fun s => s.1 < (l.length : Int))
      (mapCompute (Fn1.mk g) ⟨l.map some⟩) fuel
      ((j : Int), ⟨w.map some ++ List.replicate (l.length - j) none⟩)
      = .ok ((l.length : Int), ⟨(w ++ (l.drop j).map g).map some⟩) := by
  intro fuel
  induction fuel with
  | zero =>
      intro j w hw hj hf
      have hjn : j = l.length := by omega
      subst hjn
      simp [whileRun]
  | succ fuel ih =>
      intro j w hw hj hf
      subst hw
      by_cases hlt : w.length < l.length
      · have hc : ((w.length : Int) < (l.length : Int)) := by exact_mod_cast hlt
        have hcb : decide ((w.length : Int) < (l.length : Int)) = true :=
          decide_eq_true hc
        have hread := read_in_range l w.length hlt
        have hlen : w.length < (w.map some ++
            List.replicate (l.length - w.length) none).length := by
          simp; omega
        have hwrite := write_in_range
          (w.map some ++ List.replicate (l.length - w.length) none) w.length
          (g (l.get ⟨w.length, hlt⟩)) hlen
        have hrep : l.length - w.length = (l.length - (w.length + 1)) + 1 := by
          omega
        have hset : (w.map some ++
              List.replicate (l.length - w.length) none).set w.length
            (some (g (l.get ⟨w.length, hlt⟩)))
            = ((w ++ [g (l.get ⟨w.length, hlt⟩)]).map some ++
               List.replicate (l.length - (w.length + 1)) none) := by
          rw [hrep]
          exact slots_set w (l.length - (w.length + 1))
            (g (l.get ⟨w.length, hlt⟩))
        have hstep : (((w.length : Nat) : Int) + 1) =
            ((w.length + 1 : Nat) : Int) := by push_cast; ring
        simp only [whileRun, hcb, if_true, mapCompute, hread, Fn1.call,
          exc_bind_ok, exc_bindF_ok, exc_pure, hwrite, hset]
        rw [hstep]
        rw [ih (w.length + 1) (w ++ [g (l.get ⟨w.length, hlt⟩)]) (by simp)
          (by omega) (by omega)]
        have hdrop : l.drop w.length =
            l.get ⟨w.length, hlt⟩ :: l.drop (w.length + 1) :=
          List.drop_eq_getElem_cons hlt
        have hfinal : (w ++ [g (l.get ⟨w.length, hlt⟩)]) ++
            (l.drop (w.length + 1)).map g
            = w ++ (l.drop w.length).map g := by
          rw [hdrop]
          simp only [List.map_cons, List.append_assoc, List.singleton_append]
        rw [hfinal]
      · have hjn : w.length = l.length := by omega
        simp [whileRun, hjn]

theorem map_fn_mk {α β : Type} (g : Value α → Value β) (l : List (Value α))
    (cfg : Knobs) :
    map_fn (Fn1.mk g) (Value.stacked l) cfg = .ok (Value.stacked (l.map g)) := by
  have hloop := map_loop g l l.length 0 [] rfl (by simp) (by simp)
  simp only [map_fn, While, Fn1.isCallable, unpack, TensorArray.size,
    TensorArray.alloc, List.length_map, exc_bind_ok, exc_bindF_ok, exc_pure]
  norm_num at hloop
  rw [hloop, exc_bind_ok]
  norm_num
  have hslots : List.map (some ∘ g) l = (l.map g).map some := by simp
  rw [hslots, pack_map_some]

theorem scan_loop {α : Type} (f : Value α → Value α → Value α)
    (l : List (Value α)) :
    ∀ fuel j a (w : List (Value α)), w.length = j → j ≤ l.length →
      l.length - j ≤ fuel →
    whileRun (fun s => s.1 < (l.length : Int))
      (scanCompute (Fn2.mk f) ⟨l.map some⟩) fuel
      ((j : Int), a, ⟨w.map some ++ List.replicate (l.length - j) none⟩)
      = .ok ((l.length : Int), (l.drop j).foldl f a,
          ⟨(w ++ scanAcc f a (l.drop j)).map some⟩) := by
  intro fuel
  induction fuel with
  | zero =>
      intro j a w hw hj hf
      have hjn : j = l.length := by omega
      subst hjn
      simp [whileRun, scanAcc]
  | succ fuel ih =>
      intro j a w hw hj hf
      subst hw
      by_cases hlt : w.length < l.length
      · have hc : ((w.length : Int) < (l.length : Int)) := by exact_mod_cast hlt
        have hcb : decide ((w.length : Int) < (l.length : Int)) = true :=
          decide_eq_true hc
        have hread := read_in_range l w.length hlt
        have hlen : w.length < (w.map some ++
            List.replicate (l.length - w.length) none).length := by
          simp; omega
        have hwrite := write_in_range
          (w.map some ++ List.replicate (l.length - w.length) none) w.length
          (f a (l.get ⟨w.length, hlt⟩)) hlen
        have hrep : l.length - w.length = (l.length - (w.length + 1)) + 1 := by
          omega
        have hset : (w.map some ++
              List.replicate (l.length - w.length) none).set w.length
            (some (f a (l.get ⟨w.length, hlt⟩)))
            = ((w ++ [f a (l.get ⟨w.length, hlt⟩)]).map some ++
               List.replicate (l.length - (w.length + 1)) none) := by
          rw [hrep]
          exact slots_set w (l.length - (w.length + 1))
            (f a (l.get ⟨w.length, hlt⟩))
        have hstep : (((w.length : Nat) : Int) + 1) =
            ((w.length + 1 : Nat) : Int) := by push_cast; ring
        simp only [whileRun, hcb, if_true, scanCompute, hread, Fn2.call,
          exc_bind_ok, exc_bindF_ok, exc_pure, hwrite, hset]
        rw [hstep]
        rw [ih (w.length + 1) (f a (l.get ⟨w.length, hlt⟩))
          (w ++ [f a (l.get ⟨w.length, hlt⟩)]) (by simp) (by omega) (by omega)]
        have hdrop : l.drop w.length =
            l.get ⟨w.length, hlt⟩ :: l.drop (w.length + 1) :=
          List.drop_eq_getElem_cons hlt
        rw [hdrop]
        simp only [scanAcc, List.foldl_cons, List.append_assoc,
          List.singleton_append]
      · have hjn : w.length = l.length := by omega
        simp [whileRun, hjn, scanAcc]

theorem scan_mk_some {α : Type} (f : Value α → Value α → Value α)
    (l : List (Value α)) (v : Value α) (cfg : Knobs) :
    scan (Fn2.mk f) (Value.stacked l) (some v) cfg =
      .ok (Value.stacked (scanAcc f v l)) := by
  have hloop := scan_loop f l l.length 0 v [] rfl (by simp) (by simp)
  simp only [scan, While, Fn2.isCallable, unpack, TensorArray.size,
    TensorArray.alloc, List.length_map, exc_bind_ok, exc_bindF_ok, exc_pure]
  norm_num at hloop
  rw [hloop, exc_bind_ok]
  norm_num
  rw [pack_map_some]

theorem scan_mk_none {α : Type} (f : Value α → Value α → Value α)
    (x : Value α) (xs : List (Value α)) (cfg : Knobs) :
    scan (Fn2.mk f) (Value.stacked (x :: xs)) none cfg =
      .ok (Value.stacked (x :: scanAcc f x xs)) := by
  have h0 : TensorArray.read ⟨(x :: xs).map some⟩ ((0 : Nat) : Int) =
      .ok ((x :: xs).get ⟨0, by simp⟩) := read_in_range (x :: xs) 0 (by simp)
  simp only [List.get] at h0
  have hw0 : TensorArray.write ⟨List.replicate (xs.length + 1) none⟩
      ((0 : Nat) : Int) x = .ok ⟨[x].map some ++
        List.replicate xs.length none⟩ := by
    rw [write_in_range (List.replicate (xs.length + 1) none) 0 x (by simp)]
    simp [List.replicate_succ]
  have hloop := scan_loop f (x :: xs) (x :: xs).length 1 x [x] rfl
    (by simp) (by simp)
  simp only [scan, While, Fn2.isCallable, unpack, TensorArray.size,
    TensorArray.alloc, List.length_map, exc_bind_ok, exc_bindF_ok, exc_pure]
  norm_num at h0 hw0 hloop ⊢
  rw [h0, exc_map_ok, exc_bind_ok]
  dsimp only
  rw [hw0, exc_bind_ok]
  rw [hloop, exc_bind_ok]
  dsimp only
  rw [show some x :: List.map some (scanAcc f x xs)
    = (x :: scanAcc f x xs).map some from rfl, pack_map_some]

theorem scanAcc_length {ε : Type} (f : ε → ε → ε) (a : ε) (l : List ε) :
    (scanAcc f a l).length = l.length := by
  induction l generalizing a with
  | nil => rfl
  | cons x xs ih => simp [scanAcc, ih]

theorem scanAcc_getLast {ε : Type} (f : ε → ε → ε) (a : ε) (l : List ε) :
    (a :: scanAcc f a l).getLast? = some (l.foldl f a) := by
  induction l generalizing a with
  | nil => rfl
  | cons x xs ih =>
      rw [List.foldl_cons]
      rw [show scanAcc f a (x :: xs) = f a x :: scanAcc f (f a x) xs from rfl]
      rw [List.getLast?_cons_cons]
      exact ih (f a x)

theorem scanAcc_get {ε : Type} (f : ε → ε → ε) (a : ε) (l : List ε)
    (i : Nat) : (scanAcc f a l)[i]? =
      (l[i]?).map (fun _ => (l.take (i + 1)).foldl f a) := by
  induction l generalizing a i with
  | nil => simp [scanAcc]
  | cons x xs ih =>
      cases i with
      | zero => simp [scanAcc]
      | succ i =>
          simp only [scanAcc, List.getElem?_cons_succ, ih (f a x) i,
            List.take_succ_cons, List.foldl_cons]

theorem scanAcc_getLast_ne {ε : Type} (f : ε → ε → ε) (v : ε) (l : List ε)
    (h : l ≠ []) : (scanAcc f v l).getLast? = some (l.foldl f v) := by
  cases l with
  | nil => cases h rfl
  | cons x xs =>
      rw [show scanAcc f v (x :: xs) = f v x :: scanAcc f (f v x) xs from rfl]
      rw [scanAcc_getLast, List.foldl_cons]

theorem read_elim {ε : Type} (l : List ε) (j : Nat) :
    TensorArray.read ⟨l.map some⟩ (j : Int)
      = (l[j]?).elim (Except.error Err.indexError) Except.ok := by
  by_cases h : j < l.length
  · rw [read_in_range l j h, List.getElem?_eq_getElem h]
    rfl
  · rw [read_out_of_range l j (by omega)]
    have : l[j]? = none := by simp [List.getElem?_eq_none_iff]; omega
    rw [this]
    rfl

/-- C1: for every non-empty input `[x :: xs]`, `foldl` with no explicit
initial accumulator returns the strict left-to-right fold
`fn(...fn(fn(x0,x1),x2)..., xn-1)` (the accumulator starts as slot 0 and
the loop index starts at 1); with an initial accumulator `v` it returns the
left fold of the whole sequence from `v` (index starts at 0); and the loop
itself ends exactly at `i = n` with that accumulator, which makes the
application order observable for non-associative `fn`. -/
theorem claim1_foldl_strict_left_fold {α : Type}
    (f : Value α → Value α → Value α) (x v : Value α)
    (xs : List (Value α)) (cfg : Knobs) :
    foldl (Fn2.mk f) (Value.stacked (x :: xs)) none cfg = .ok (xs.foldl f x)
    ∧ foldl (Fn2.mk f) (Value.stacked xs) (some v) cfg = .ok (xs.foldl f v)
    ∧ While (fun s => s.1 < (((x :: xs).length : Nat) : Int))
        (foldlCompute (Fn2.mk f) ⟨(x :: xs).map some⟩) ((1 : Int), x) cfg
        ((x :: xs).length)
      = .ok ((((x :: xs).length : Nat) : Int), xs.foldl f x) := by
  have hloop := foldl_loop f (x :: xs) (x :: xs).length 1 x (by simp) (by simp)
  norm_num at hloop
  exact ⟨foldl_mk_none f x xs cfg, foldl_mk_some f xs v cfg, hloop⟩

/-- C2: `foldr` applies `fn` strictly right-to-left: with no explicit
initial accumulator on `xs ++ [x]` the accumulator starts as the last slot
`x` (index starts at `n - 1`) and the result is the left fold of the
reversed prefix; with an initial accumulator it folds the whole reversed
sequence; and on the concrete non-commutative `keepFirst` the two folds
return observably different results on the same input. -/
theorem claim2_foldr_strict_right_fold {α : Type}
    (f : Value α → Value α → Value α) (x v : Value α)
    (xs : List (Value α)) (cfg : Knobs) :
    foldr (Fn2.mk f) (Value.stacked (xs ++ [x])) none cfg
      = .ok (xs.reverse.foldl f x)
    ∧ foldr (Fn2.mk f) (Value.stacked xs) (some v) cfg
      = .ok (xs.reverse.foldl f v)
    ∧ foldl (Fn2.mk keepFirst)
        (Value.stacked [Value.scalar 0, Value.scalar 1]) none defaultKnobs
      ≠ foldr (Fn2.mk keepFirst)
        (Value.stacked [Value.scalar 0, Value.scalar 1]) none defaultKnobs := by
  refine ⟨foldr_mk_none f xs x cfg, foldr_mk_some f xs v cfg, ?_⟩
  have h1 : foldl (Fn2.mk keepFirst)
      (Value.stacked [Value.scalar 0, Value.scalar 1]) none defaultKnobs
      = .ok (Value.scalar 0) := rfl
  have h2 : foldr (Fn2.mk keepFirst)
      (Value.stacked [Value.scalar 0, Value.scalar 1]) none defaultKnobs
      = .ok (Value.scalar 1) := rfl
  rw [h1, h2]
  simp

/-- C3: whenever `scan` succeeds on an input sequence (returning a stacked
list `ys`), `ys` has the same length as the input, `foldl` succeeds on the
same function, input and initial accumulator, and on a non-empty input the
last element of `ys` is exactly the `foldl` result. -/
theorem claim3_scan_matches_foldl {α : Type}
    (f : Value α → Value α → Value α) (l : List (Value α))
    (init : Option (Value α)) (cfg : Knobs) (ys : List (Value α))
    (h : scan (Fn2.mk f) (Value.stacked l) init cfg
      = .ok (Value.stacked ys)) :
    ys.length = l.length
    ∧ ∃ a, foldl (Fn2.mk f) (Value.stacked l) init cfg = .ok a
        ∧ (l ≠ [] → ys.getLast? = some a) := by
  cases init with
  | some v =>
      rw [scan_mk_some f l v cfg] at h
      have hys : ys = scanAcc f v l := by
        injection h with h1
        injection h1 with h2
        exact h2.symm
      subst hys
      exact ⟨scanAcc_length f v l, l.foldl f v, foldl_mk_some f l v cfg,
        fun hne => scanAcc_getLast_ne f v l hne⟩
  | none =>
      cases l with
      | nil =>
          rw [show scan (Fn2.mk f) (Value.stacked ([] : List (Value α)))
            none cfg = .error .indexError from rfl] at h
          cases h
      | cons x xs =>
          rw [scan_mk_none f x xs cfg] at h
          have hys : ys = x :: scanAcc f x xs := by
            injection h with h1
            injection h1 with h2
            exact h2.symm
          subst hys
          refine ⟨by simp [scanAcc_length], xs.foldl f x,
            foldl_mk_none f x xs cfg, fun _ => ?_⟩
          exact scanAcc_getLast f x xs

/-- C3 witness: the general theorem applied at `addV` on the concrete
input `[1, 2, 3]`, whose scan output is `[1, 3, 6]`. -/
theorem claim3_witness :
    ([Value.scalar 1, Value.scalar 3, Value.scalar 6] : List (Value Nat)).length
      = ([Value.scalar 1, Value.scalar 2, Value.scalar 3] :
          List (Value Nat)).length
    ∧ ∃ a, foldl (Fn2.mk addV)
          (Value.stacked [Value.scalar 1, Value.scalar 2, Value.scalar 3])
          none defaultKnobs = .ok a
        ∧ (([Value.scalar 1, Value.scalar 2, Value.scalar 3] :
              List (Value Nat)) ≠ [] →
           ([Value.scalar 1, Value.scalar 3, Value.scalar 6] :
              List (Value Nat)).getLast? = some a) :=
  claim3_scan_matches_foldl addV
    [Value.scalar 1, Value.scalar 2, Value.scalar 3] none defaultKnobs
    [Value.scalar 1, Value.scalar 3, Value.scalar 6] rfl

/-- C4: `scan` without an explicit initial accumulator on a non-empty input
`x :: xs` writes output slot 0 with `x` unmodified (no application of `fn`,
done by the pre-loop write), and the loop covers exactly the remaining
`n - 1` slots: slot `i + 1` of the output holds the accumulated value
`foldl` of the first `i + 1` elements of `xs` from `x`. -/
theorem claim4_scan_seeds_slot_zero {α : Type}
    (f : Value α → Value α → Value α) (x : Value α) (xs : List (Value α))
    (cfg : Knobs) :
    scan (Fn2.mk f) (Value.stacked (x :: xs)) none cfg
      = .ok (Value.stacked (x :: scanAcc f x xs))
    ∧ (x :: scanAcc f x xs).length = (x :: xs).length
    ∧ (x :: scanAcc f x xs)[0]? = some x
    ∧ ∀ i : Nat, (x :: scanAcc f x xs)[i + 1]?
        = (xs[i]?).map (fun _ => (xs.take (i + 1)).foldl f x) := by
  refine ⟨scan_mk_none f x xs cfg, by simp [scanAcc_length], by simp,
    fun i => ?_⟩
  rw [List.getElem?_cons_succ]
  exact scanAcc_get f x xs i

/-- C5: the output of `map_fn` has the same length as the input, slot `i`
of the output is `fn` applied to slot `i` of the input, and `map_fn` with
the identity function returns a value equal to its input. -/
theorem claim5_map_pointwise {α β : Type} (g : Value α → Value β)
    (l : List (Value α)) (cfg : Knobs) :
    map_fn (Fn1.mk g) (Value.stacked l) cfg = .ok (Value.stacked (l.map g))
    ∧ (l.map g).length = l.length
    ∧ (∀ i : Nat, (l.map g)[i]? = (l[i]?).map g)
    ∧ map_fn (Fn1.mk (fun v : Value α => v)) (Value.stacked l) cfg
      = .ok (Value.stacked l) := by
  refine ⟨map_fn_mk g l cfg, by simp, fun i => by simp, ?_⟩
  have h := map_fn_mk (fun v : Value α => v) l cfg
  simpa using h

/-- C6: `unpack` of a value of rank at least 1 (a `stacked l`) yields a
buffer of capacity the leading-dimension size whose slot `i` is the `i`-th
leading slice, `pack` of that buffer restores the original value
(`pack(unpack(v)) = v`), and `unpack` of a rank-0 scalar fails with
`ShapeError`. -/
theorem claim6_unpack_pack_roundtrip {α : Type} (l : List (Value α)) (y : α) :
    unpack (Value.stacked l) = .ok ⟨l.map some⟩
    ∧ (TensorArray.mk (l.map some)).size = l.length
    ∧ (∀ j : Nat, TensorArray.read ⟨l.map some⟩ (j : Int)
        = (l[j]?).elim (Except.error Err.indexError) Except.ok)
    ∧ (unpack (Value.stacked l)).bind TensorArray.pack
      = .ok (Value.stacked l)
    ∧ unpack (Value.scalar y) = .error .shapeError := by
  refine ⟨rfl, by simp [TensorArray.size], fun j => read_elim l j, ?_, rfl⟩
  rw [show unpack (Value.stacked l) = .ok ⟨l.map some⟩ from rfl,
    exc_bindF_ok, pack_map_some]

/-- C7 (amended): a non-callable `fn` is rejected with `TypeError` (the
spec's `NotCallableError`) before any buffer is allocated or unpacked — the
result is the same error for every input, including inputs on which
allocation or unpack would themselves fail; a callable of mismatched arity
is not rejected by this validation (see the counterexample theorem). -/
theorem claim7_not_callable_rejected_first {α β : Type} (elems : Value α)
    (init : Option (Value α)) (cfg : Knobs) :
    foldl Fn2.notCallable elems init cfg = .error .typeError
    ∧ foldr Fn2.notCallable elems init cfg = .error .typeError
    ∧ scan Fn2.notCallable elems init cfg = .error .typeError
    ∧ map_fn (Fn1.notCallable : Fn1 (Value α) (Value β)) elems cfg
      = .error .typeError :=
  ⟨rfl, rfl, rfl, rfl⟩

/-- C7 counterexample: a callable of the wrong arity (a one-argument
callable passed where two arguments are expected) passes the `callable(fn)`
validation, and `foldl` on a one-element input then succeeds without any
error at all — it does not fail with the `NotCallableError` the claim
requires for every callable of mismatched arity. -/
theorem claim7_counterexample :
    foldl (Fn2.wrongArity (fun v => v))
      (Value.stacked [Value.scalar (0 : Nat)]) none defaultKnobs
      = .ok (Value.scalar 0)
    ∧ (Fn2.wrongArity (fun v : Value Nat => v)).isCallable = true :=
  ⟨rfl, rfl⟩

/-- C8: on an empty input with no initial accumulator, `foldl` and `scan`
fail with `IndexError` from the pre-loop read of slot 0, and `foldr` fails
with `IndexError` from the pre-loop read of slot `n - 1 = -1`; the very
reads are out-of-range reads of the empty buffer, not a special-cased
empty result. -/
theorem claim8_empty_input_index_error {α : Type}
    (f : Value α → Value α → Value α) (cfg : Knobs) :
    foldl (Fn2.mk f) (Value.stacked ([] : List (Value α))) none cfg
      = .error .indexError
    ∧ foldr (Fn2.mk f) (Value.stacked ([] : List (Value α))) none cfg
      = .error .indexError
    ∧ scan (Fn2.mk f) (Value.stacked ([] : List (Value α))) none cfg
      = .error .indexError
    ∧ TensorArray.read (⟨[]⟩ : TensorArray (Value α)) 0
      = .error .indexError
    ∧ TensorArray.read (⟨[]⟩ : TensorArray (Value α)) (((0 : Nat) : Int) - 1)
      = .error .indexError :=
  ⟨rfl, rfl, rfl, rfl, rfl⟩

/-- C9: the scheduling knobs (`parallel_iterations`, `swap_memory`, and the
rest of the `While` configuration) never change the observable result of
any combinator: two invocations differing only in the knobs are equal for
every callback, input and initial accumulator. -/
theorem claim9_knobs_no_effect {α β : Type} (fn : Fn2 (Value α))
    (fm : Fn1 (Value α) (Value β)) (elems : Value α)
    (init : Option (Value α)) (cfg cfg' : Knobs) :
    foldl fn elems init cfg = foldl fn elems init cfg'
    ∧ foldr fn elems init cfg = foldr fn elems init cfg'
    ∧ map_fn fm elems cfg = map_fn fm elems cfg'
    ∧ scan fn elems init cfg = scan fn elems init cfg' :=
  ⟨rfl, rfl, rfl, rfl⟩

/-- C10: `map_fn` on an empty input succeeds and returns the empty stacked
value (its loop body runs zero times and the zero-slot output buffer packs
to a length-0 result), while `foldl`, `foldr` and `scan` on the same empty
input with no initial accumulator all fail — `map_fn` is the only
combinator accepting an empty input without one. -/
theorem claim10_map_empty_ok {α β : Type} (g : Value α → Value β)
    (f : Value α → Value α → Value α) (cfg : Knobs) :
    map_fn (Fn1.mk g) (Value.stacked ([] : List (Value α))) cfg
      = .ok (Value.stacked ([] : List (Value β)))
    ∧ foldl (Fn2.mk f) (Value.stacked ([] : List (Value α))) none cfg
      = .error .indexError
    ∧ foldr (Fn2.mk f) (Value.stacked ([] : List (Value α))) none cfg
      = .error .indexError
    ∧ scan (Fn2.mk f) (Value.stacked ([] : List (Value α))) none cfg
      = .error .indexError :=
  ⟨rfl, rfl, rfl, rfl⟩

end FuncOps
